import Mathlib

/-!
# Highlight Context Locator — a shallow embedding

This file embeds the context-location logic of the pdf-explainer repository:

* `normalize` and `findContext` from `src/app/api/explain/route.ts`,
* `norm` and `getContextChunk` from `src/unnamed/part_001`.

JavaScript strings are sequences of UTF-16 code units, and `length`,
`indexOf`, `slice`, `toLowerCase`, `trim` and the regex `\s` all operate on
code units.  We therefore model a string as a `List Nat` of code units.

* `isWS` is exactly the set matched by the regex `\s` (which coincides with
  the set trimmed by `String.prototype.trim`): tab, LF, VT, FF, CR, space,
  NBSP, and the Unicode space separators / line separators / BOM.
* `lowerChar` models `toLowerCase` on the Basic Latin and Latin-1 ranges
  (A–Z, À–Þ except ×).  Outside those ranges the characters appearing in
  this development are fixed points of `toLowerCase`, so the model agrees
  with JavaScript on every string used below.
* `idxOf` models `String.prototype.indexOf` (`none` for `-1`); in
  particular an empty needle is found at index 0, as in JavaScript.
* `jsSlice l s e` models `String.prototype.slice(s, e)` for the
  non-negative arguments produced by the code (both are clamped to the
  string length, and the result is empty when `s ≥ e`).
-/

namespace PdfExplainer

/-- The JavaScript `\s` character class (= the set trimmed by `trim()`),
as UTF-16 code units. -/
def isWS (c : Nat) : Bool :=
  decide (c = 9 ∨ c = 10 ∨ c = 11 ∨ c = 12 ∨ c = 13 ∨ c = 32 ∨ c = 160 ∨
    c = 5760 ∨ (8192 ≤ c ∧ c ≤ 8202) ∨ c = 8232 ∨ c = 8233 ∨ c = 8239 ∨
    c = 8287 ∨ c = 12288 ∨ c = 65279)

/-- `toLowerCase` on one code unit (Basic Latin + Latin-1 case mappings). -/
def lowerChar (c : Nat) : Nat :=
  if (65 ≤ c ∧ c ≤ 90) ∨ (192 ≤ c ∧ c ≤ 214) ∨ (216 ≤ c ∧ c ≤ 222) then
    c + 32
  else c

/-- `s.toLowerCase()`. -/
def lower (l : List Nat) : List Nat := l.map lowerChar

/-- `s.replace(/\s+/g, " ")`: every maximal run of whitespace becomes a
single space. -/
def squashWS : List Nat → List Nat
  | [] => []
  | [c] => if isWS c then [32] else [c]
  | c :: d :: rest =>
    if isWS c then
      if isWS d then squashWS (d :: rest)
      else 32 :: squashWS (d :: rest)
    else c :: squashWS (d :: rest)

/-- `s.trim()`: remove leading and trailing whitespace. -/
def trimWS (l : List Nat) : List Nat :=
  ((l.dropWhile isWS).reverse.dropWhile isWS).reverse

/-- `normalize` from `route.ts`:
`s.replace(/\s+/g, " ").trim()` (no lowercasing, no quote mapping). -/
def normalize (s : List Nat) : List Nat := trimWS (squashWS s)

/-- `norm` from `part_001`:
`s.toLowerCase().replace(/\s+/g, " ").trim()` (no quote mapping). -/
def norm (s : List Nat) : List Nat := trimWS (squashWS (lower s))

/-- Scan for `haystack.indexOf(needle)` starting at accumulator `i`. -/
def idxOfFrom (needle : List Nat) : List Nat → Nat → Option Nat
  | [], i => if needle.isPrefixOf [] then some i else none
  | c :: rest, i =>
    if needle.isPrefixOf (c :: rest) then some i
    else idxOfFrom needle rest (i + 1)

/-- `haystack.indexOf(needle)`: `some` of the first match index, `none`
for JavaScript's `-1`.  An empty needle is found at index 0. -/
def idxOf (haystack needle : List Nat) : Option Nat := idxOfFrom needle haystack 0

/-- `s.slice(start, stop)` for non-negative arguments. -/
def jsSlice (l : List Nat) (start stop : Nat) : List Nat :=
  (l.take stop).drop start

/-- Result of `findContext` (`route.ts`). -/
structure FCResult where
  found : Bool
  context : List Nat

/-- `findContext` from `src/app/api/explain/route.ts`, lines 23–50.

The source normalizes only the highlight (`textNorm = text` is the raw
document), lowercases both sides, and searches the raw lowercased text.
`Math.floor(windowChars * 0.45)` and `Math.floor(windowChars * 0.55)` with
`windowChars = 4000` evaluate (exactly, IEEE-754 double rounding included)
to `1800` and `2200`.  `Math.max(0, idx - 1800)` is Nat subtraction. -/
def findContext (text highlightRaw : List Nat) : FCResult :=
  let highlight := normalize highlightRaw
  let haystack := lower text
  let needle := lower highlight
  match idxOf haystack needle with
  | none => ⟨false, jsSlice text 0 3500⟩
  | some idx =>
    ⟨true, jsSlice text (idx - 1800) (min text.length (idx + needle.length + 2200))⟩

/-- Result of `getContextChunk` (`part_001`); `stop` is the source's
`end` field. -/
structure ChunkResult where
  context : List Nat
  found : Bool
  start : Nat
  stop : Nat

/-- The source's `idx` after `part_001` lines 87–92: the exact search in
normalized space, then — when the normalized highlight exceeds 140 code
units and the exact search failed — the retry with its first 140 code
units. -/
def probeIdx (origNorm hNorm : List Nat) : Option Nat :=
  match idxOf origNorm hNorm with
  | some i => some i
  | none =>
    if 140 < hNorm.length then idxOf origNorm (hNorm.take 140) else none

/-- The source's `origIdx` after `part_001` lines 103–110: a case-insensitive
search of the raw document for the raw trimmed-highlight prefix `needle`
(skipped when `needle` is empty, since `needle ? … : -1`), falling back to
the length-ratio estimate
`Math.floor(idx * (original.length / Math.max(origNorm.length, 1)))`.
The source computes the ratio with IEEE-754 doubles; we model the exact
`idx * |original| / max |origNorm| 1`, which can differ from the double
computation only by rounding in the last place.  No theorem below depends
on the value produced by the ratio branch, only on the clamping of
`start`/`stop` that follows it. -/
def anchorIdx (original origNorm needle : List Nat) (idx : Nat) : Nat :=
  match (if needle = [] then none else idxOf (lower original) (lower needle)) with
  | some j => j
  | none => idx * original.length / max origNorm.length 1

/-- `getContextChunk` from `src/unnamed/part_001`, lines 64–117.

`pdfText || ""` and `highlight || ""` are the identity on strings.
`!original.trim()` tests for the empty string. -/
def getContextChunk (pdfText highlight : List Nat) (radius : Nat) : ChunkResult :=
  if trimWS pdfText = [] then
    ⟨[], false, 0, 0⟩
  else
    let origNorm := norm pdfText
    let hNorm := norm highlight
    if hNorm.length < 8 then
      let context := jsSlice pdfText 0 (min pdfText.length 12000)
      ⟨context, false, 0, context.length⟩
    else
      match probeIdx origNorm hNorm with
      | none =>
        let context := jsSlice pdfText 0 (min pdfText.length 12000)
        ⟨context, false, 0, context.length⟩
      | some idx =>
        let ht := trimWS highlight
        let needle := ht.take (min ht.length 80)
        let origIdx := anchorIdx pdfText origNorm needle idx
        let start := origIdx - radius
        let stop := min pdfText.length (origIdx + radius)
        ⟨jsSlice pdfText start stop, true, start, stop⟩

/-- UTF-16 code units of a (BMP-only) string literal. -/
def str (s : String) : List Nat := s.data.map Char.toNat

/-! ## Character-level facts -/

theorem isWS_lowerChar (c : Nat) : isWS (lowerChar c) = isWS c := by
  unfold lowerChar
  split
  · rename_i h
    unfold isWS
    rw [decide_eq_decide]
    omega
  · rfl

theorem lowerChar_idem (c : Nat) : lowerChar (lowerChar c) = lowerChar c := by
  by_cases h : (65 ≤ c ∧ c ≤ 90) ∨ (192 ≤ c ∧ c ≤ 214) ∨ (216 ≤ c ∧ c ≤ 222)
  · have h2 : ¬((65 ≤ c + 32 ∧ c + 32 ≤ 90) ∨ (192 ≤ c + 32 ∧ c + 32 ≤ 214) ∨
        (216 ≤ c + 32 ∧ c + 32 ≤ 222)) := by omega
    simp only [lowerChar, if_pos h, if_neg h2]
  · simp only [lowerChar, if_neg h]

theorem lowerChar_32 : lowerChar 32 = 32 := by decide

theorem isWS_32 : isWS 32 = true := by decide

/-! ## `lower` facts -/

theorem length_lower (l : List Nat) : (lower l).length = l.length := by
  simp [lower]

theorem lower_idem (l : List Nat) : lower (lower l) = lower l := by
  simp [lower, List.map_map, Function.comp, lowerChar_idem]

theorem isWS_comp_lowerChar : (isWS ∘ lowerChar) = isWS :=
  funext isWS_lowerChar

/-! ## `squashWS` structure -/

theorem mem_squashWS {l : List Nat} {c : Nat} (h : c ∈ squashWS l) :
    c = 32 ∨ c ∈ l := by
  induction l using squashWS.induct with
  | case1 => simp [squashWS] at h
  | case2 a ha =>
    simp only [squashWS, if_pos ha, List.mem_singleton] at h
    exact Or.inl h
  | case3 a ha =>
    simp only [squashWS, if_neg ha, List.mem_singleton] at h
    exact Or.inr (h ▸ List.mem_singleton_self a)
  | case4 a d rest ha hd ih =>
    simp only [squashWS, if_pos ha, if_pos hd] at h
    rcases ih h with h' | h'
    · exact Or.inl h'
    · exact Or.inr (List.mem_cons_of_mem a h')
  | case5 a d rest ha hd ih =>
    simp only [squashWS, if_pos ha, if_neg hd, List.mem_cons] at h
    rcases h with h' | h'
    · exact Or.inl h'
    · rcases ih h' with h'' | h''
      · exact Or.inl h''
      · exact Or.inr (List.mem_cons_of_mem a h'')
  | case6 a d rest ha ih =>
    simp only [squashWS, if_neg ha, List.mem_cons] at h
    rcases h with h' | h'
    · exact Or.inr (h' ▸ List.mem_cons_self a (d :: rest))
    · rcases ih h' with h'' | h''
      · exact Or.inl h''
      · exact Or.inr (List.mem_cons_of_mem a h'')

theorem squashWS_head_of_not_ws {d : Nat} {rest : List Nat} (hd : ¬isWS d = true) :
    ∃ t, squashWS (d :: rest) = d :: t := by
  cases rest with
  | nil => exact ⟨[], by simp [squashWS, hd]⟩
  | cons e rest' => exact ⟨squashWS (e :: rest'), by simp only [squashWS, if_neg hd]⟩

theorem squash_lower (l : List Nat) : squashWS (lower l) = lower (squashWS l) := by
  induction l using squashWS.induct with
  | case1 => rfl
  | case2 a ha =>
    simp only [lower, List.map_cons, List.map_nil, squashWS, isWS_lowerChar,
      if_pos ha, lowerChar_32]
  | case3 a ha =>
    simp only [lower, List.map_cons, List.map_nil, squashWS, isWS_lowerChar,
      if_neg ha]
  | case4 a d rest ha hd ih =>
    simp only [lower, List.map_cons] at ih ⊢
    simp only [squashWS, isWS_lowerChar, if_pos ha, if_pos hd, ih]
  | case5 a d rest ha hd ih =>
    simp only [lower, List.map_cons] at ih ⊢
    simp only [squashWS, isWS_lowerChar, if_pos ha, if_neg hd, ih,
      List.map_cons, lowerChar_32]
  | case6 a d rest ha ih =>
    simp only [lower, List.map_cons] at ih ⊢
    simp only [squashWS, isWS_lowerChar, if_neg ha, ih, List.map_cons]

/-! ## `trimWS` structure -/

theorem dropWhile_head_false {p : Nat → Bool} {l : List Nat} {c : Nat} {t : List Nat}
    (h : l.dropWhile p = c :: t) : p c = false := by
  induction l with
  | nil => simp at h
  | cons a s ih =>
    rw [List.dropWhile_cons] at h
    split at h
    · exact ih h
    · rename_i hp
      cases h
      simpa using hp

theorem dropWhile_idem (p : Nat → Bool) (l : List Nat) :
    (l.dropWhile p).dropWhile p = l.dropWhile p := by
  cases h : l.dropWhile p with
  | nil => simp
  | cons c t =>
    have hc := dropWhile_head_false h
    rw [List.dropWhile_cons, hc]
    simp

theorem trimWS_prefix_dropWhile (l : List Nat) :
    trimWS l <+: l.dropWhile isWS := by
  unfold trimWS
  obtain ⟨p, hp⟩ := List.dropWhile_suffix (l := (l.dropWhile isWS).reverse) isWS
  exact ⟨p.reverse, by rw [← List.reverse_append, hp, List.reverse_reverse]⟩

theorem trimWS_infix_self (l : List Nat) : trimWS l <:+: l :=
  (trimWS_prefix_dropWhile l).isInfix.trans (List.dropWhile_suffix isWS).isInfix

theorem trimWS_idem (l : List Nat) : trimWS (trimWS l) = trimWS l := by
  have h1 : (trimWS l).dropWhile isWS = trimWS l := by
    cases hBr : trimWS l with
    | nil => simp
    | cons c t =>
      obtain ⟨q, hq⟩ := trimWS_prefix_dropWhile l
      rw [hBr] at hq
      have hdw : l.dropWhile isWS = c :: (t ++ q) := by
        rw [← hq]; rfl
      have hc := dropWhile_head_false hdw
      rw [List.dropWhile_cons, hc]
      simp
  have h2 : ((l.dropWhile isWS).reverse.dropWhile isWS).dropWhile isWS =
      (l.dropWhile isWS).reverse.dropWhile isWS := dropWhile_idem ..
  calc trimWS (trimWS l)
      = (((trimWS l).dropWhile isWS).reverse.dropWhile isWS).reverse := rfl
    _ = ((trimWS l).reverse.dropWhile isWS).reverse := by rw [h1]
    _ = ((((l.dropWhile isWS).reverse.dropWhile isWS).reverse.reverse).dropWhile
          isWS).reverse := rfl
    _ = (((l.dropWhile isWS).reverse.dropWhile isWS).dropWhile isWS).reverse := by
          rw [List.reverse_reverse]
    _ = ((l.dropWhile isWS).reverse.dropWhile isWS).reverse := by rw [h2]
    _ = trimWS l := rfl

theorem trimWS_lower (l : List Nat) : trimWS (lower l) = lower (trimWS l) := by
  unfold trimWS lower
  rw [List.dropWhile_map, isWS_comp_lowerChar, ← List.map_reverse,
    List.dropWhile_map, isWS_comp_lowerChar, ← List.map_reverse]

theorem trimWS_eq_nil_iff {l : List Nat} :
    trimWS l = [] ↔ ∀ c ∈ l, isWS c = true := by
  constructor
  · intro h c hc
    unfold trimWS at h
    rw [List.reverse_eq_nil_iff, List.dropWhile_eq_nil_iff] at h
    rw [← List.takeWhile_append_dropWhile (p := isWS) (l := l)] at hc
    rcases List.mem_append.mp hc with h' | h'
    · exact List.mem_takeWhile_imp h'
    · exact h c (List.mem_reverse.mpr h')
  · intro h
    have hd : l.dropWhile isWS = [] :=
      List.dropWhile_eq_nil_iff.mpr fun x hx => h x hx
    simp [trimWS, hd]

theorem trimWS_decomp (l : List Nat) :
    ∃ u v, u ++ trimWS l ++ v = l ∧
      (∀ c ∈ u, isWS c = true) ∧ (∀ c ∈ v, isWS c = true) := by
  refine ⟨l.takeWhile isWS, ((l.dropWhile isWS).reverse.takeWhile isWS).reverse,
    ?_, ?_, ?_⟩
  · have hA : trimWS l ++ ((l.dropWhile isWS).reverse.takeWhile isWS).reverse =
        l.dropWhile isWS := by
      unfold trimWS
      rw [← List.reverse_append, List.takeWhile_append_dropWhile,
        List.reverse_reverse]
    rw [List.append_assoc, hA, List.takeWhile_append_dropWhile]
  · intro c hc; exact List.mem_takeWhile_imp hc
  · intro c hc; exact List.mem_takeWhile_imp (List.mem_reverse.mp hc)

/-- Whitespace-run freedom: no two adjacent whitespace characters, and any
whitespace character present is the plain space. -/
def Good (l : List Nat) : Prop :=
  l.Chain' (fun a b => ¬(isWS a = true ∧ isWS b = true)) ∧
    ∀ c ∈ l, isWS c = true → c = 32

theorem good_squashWS (l : List Nat) : Good (squashWS l) := by
  induction l using squashWS.induct with
  | case1 => exact ⟨List.chain'_nil, by simp [squashWS]⟩
  | case2 a ha =>
    refine ⟨?_, ?_⟩
    · simp only [squashWS, if_pos ha]; exact List.chain'_singleton 32
    · simp only [squashWS, if_pos ha]
      intro c hc _
      simpa using hc
  | case3 a ha =>
    refine ⟨?_, ?_⟩
    · simp only [squashWS, if_neg ha]; exact List.chain'_singleton a
    · simp only [squashWS, if_neg ha]
      intro c hc hw
      rw [List.mem_singleton] at hc
      exact absurd (hc ▸ hw) ha
  | case4 a d rest ha hd ih =>
    simpa only [squashWS, if_pos ha, if_pos hd] using ih
  | case5 a d rest ha hd ih =>
    obtain ⟨hch, hmem⟩ := ih
    refine ⟨?_, ?_⟩
    · simp only [squashWS, if_pos ha, if_neg hd]
      rw [List.chain'_cons']
      refine ⟨?_, hch⟩
      intro y hy
      obtain ⟨t, ht⟩ := squashWS_head_of_not_ws hd
      rw [ht] at hy
      simp only [List.head?_cons, Option.mem_def, Option.some.injEq] at hy
      subst hy
      intro hcon
      exact hd hcon.2
    · simp only [squashWS, if_pos ha, if_neg hd]
      intro c hc hw
      rcases List.mem_cons.mp hc with h' | h'
      · exact h'
      · exact hmem c h' hw
  | case6 a d rest ha ih =>
    obtain ⟨hch, hmem⟩ := ih
    refine ⟨?_, ?_⟩
    · simp only [squashWS, if_neg ha]
      rw [List.chain'_cons']
      refine ⟨?_, hch⟩
      intro y _ hcon
      exact ha hcon.1
    · simp only [squashWS, if_neg ha]
      intro c hc hw
      rcases List.mem_cons.mp hc with h' | h'
      · exact absurd (h' ▸ hw) ha
      · exact hmem c h' hw

theorem squashWS_eq_self_of_good {l : List Nat} (h : Good l) : squashWS l = l := by
  induction l using squashWS.induct with
  | case1 => rfl
  | case2 a ha =>
    have h32 := h.2 a (List.mem_singleton_self a) ha
    have hs : squashWS [a] = [32] := by simp only [squashWS, if_pos ha]
    rw [hs, h32]
  | case3 a ha => simp only [squashWS, if_neg ha]
  | case4 a d rest ha hd ih =>
    exact absurd ⟨ha, hd⟩ (List.chain'_cons.mp h.1).1
  | case5 a d rest ha hd ih =>
    have h32 := h.2 a (List.mem_cons_self a (d :: rest)) ha
    have htail : Good (d :: rest) :=
      ⟨h.1.tail, fun c hc hw => h.2 c (List.mem_cons_of_mem a hc) hw⟩
    have hs : squashWS (a :: d :: rest) = 32 :: squashWS (d :: rest) := by
      simp only [squashWS, if_pos ha, if_neg hd]
    rw [hs, ih htail, h32]
  | case6 a d rest ha ih =>
    have htail : Good (d :: rest) :=
      ⟨h.1.tail, fun c hc hw => h.2 c (List.mem_cons_of_mem a hc) hw⟩
    simp only [squashWS, if_neg ha, ih htail]

theorem good_mono {l m : List Nat} (h : Good l) (hi : m <:+: l) : Good m :=
  ⟨ List.Chain'.infix h.1 hi, fun c hc hw => h.2 c (hi.subset hc) hw⟩

/-! ## Idempotence of the two normalizations -/

theorem normalize_idem (s : List Nat) : normalize (normalize s) = normalize s := by
  unfold normalize
  rw [squashWS_eq_self_of_good (good_mono (good_squashWS s) (trimWS_infix_self _)),
    trimWS_idem]

theorem norm_idem (s : List Nat) : norm (norm s) = norm s := by
  unfold norm
  rw [← trimWS_lower, ← squash_lower, lower_idem,
    squashWS_eq_self_of_good (good_mono (good_squashWS (lower s)) (trimWS_infix_self _)),
    trimWS_idem]

/-! ## `idxOf` soundness and completeness -/

theorem idxOfFrom_some {needle l : List Nat} {i j : Nat}
    (h : idxOfFrom needle l i = some j) :
    ∃ k, j = i + k ∧ needle <+: l.drop k ∧ k + needle.length ≤ l.length := by
  induction l generalizing i with
  | nil =>
    unfold idxOfFrom at h
    split at h
    · rename_i hp
      cases h
      have hpre : needle <+: ([] : List Nat) := List.isPrefixOf_iff_prefix.mp hp
      refine ⟨0, by omega, by simpa using hpre, ?_⟩
      have := hpre.length_le
      simpa using this
    · cases h
  | cons c rest ih =>
    unfold idxOfFrom at h
    split at h
    · rename_i hp
      cases h
      have hpre : needle <+: c :: rest := List.isPrefixOf_iff_prefix.mp hp
      refine ⟨0, by omega, by simpa using hpre, ?_⟩
      have := hpre.length_le
      omega
    · obtain ⟨k, hk, hpre, hlen⟩ := ih h
      refine ⟨k + 1, by omega, ?_, ?_⟩
      · simpa using hpre
      · simp only [List.length_cons]; omega

theorem idxOf_some {h n : List Nat} {j : Nat} (hj : idxOf h n = some j) :
    n <+: h.drop j ∧ j + n.length ≤ h.length := by
  obtain ⟨k, hk, hpre, hlen⟩ := idxOfFrom_some hj
  have : k = j := by omega
  subst this
  exact ⟨hpre, hlen⟩

theorem idxOfFrom_none {needle l : List Nat} {i : Nat}
    (h : idxOfFrom needle l i = none) :
    ∀ k, ¬ needle <+: l.drop k := by
  induction l generalizing i with
  | nil =>
    unfold idxOfFrom at h
    split at h
    · cases h
    · rename_i hp
      intro k hc
      exact hp (List.isPrefixOf_iff_prefix.mpr (by simpa using hc))
  | cons c rest ih =>
    unfold idxOfFrom at h
    split at h
    · cases h
    · rename_i hp
      have hrec := ih h
      intro k
      cases k with
      | zero => exact fun hc => hp (List.isPrefixOf_iff_prefix.mpr hc)
      | succ k => simpa using hrec k

theorem idxOf_ne_none_of_occurs {h n : List Nat} (hi : n <:+: h) :
    idxOf h n ≠ none := by
  obtain ⟨s, t, hst⟩ := hi
  intro hnone
  apply idxOfFrom_none hnone s.length
  rw [← hst, List.append_assoc, List.drop_left]
  exact ⟨t, rfl⟩

theorem idxOf_eq_none_of_lt {h n : List Nat} (hl : h.length < n.length) :
    idxOf h n = none := by
  cases hi : idxOf h n with
  | none => rfl
  | some j =>
    have h1 := (idxOf_some hi).1.length_le
    rw [List.length_drop] at h1
    omega

/-! ## `jsSlice` facts -/

theorem jsSlice_infix_self (l : List Nat) (s e : Nat) : jsSlice l s e <:+: l := by
  unfold jsSlice
  exact (List.drop_suffix s (l.take e)).isInfix.trans
    ( List.take_prefix e l).isInfix

theorem jsSlice_length (l : List Nat) (s e : Nat) :
    (jsSlice l s e).length = min e l.length - s := by
  simp [jsSlice]

theorem jsSlice_zero (l : List Nat) (e : Nat) : jsSlice l 0 e = l.take e := by
  simp [jsSlice]

theorem jsSlice_ne_nil {l : List Nat} {s e : Nat} (h : s < min e l.length) :
    jsSlice l s e ≠ [] := by
  intro hc
  have hlen := jsSlice_length l s e
  rw [hc] at hlen
  simp at hlen
  omega

theorem infix_jsSlice {n l : List Nat} {j s e : Nat}
    (hpre : n <+: l.drop j) (hs : s ≤ j) (he : j + n.length ≤ e) :
    n <:+: jsSlice l s e := by
  have h1 : jsSlice l s e = (l.drop s).take (e - s) := by
    unfold jsSlice
    rw [List.drop_take]
  obtain ⟨t, ht⟩ := hpre
  have h2 : (l.drop s).drop (j - s) = l.drop j := by
    rw [List.drop_drop]
    congr 1
    omega
  have h3 : (l.drop s).take (e - s) =
      (l.drop s).take (j - s) ++ ((l.drop s).drop (j - s)).take (e - s - (j - s)) := by
    rw [← List.take_add]
    congr 1
    omega
  have h4 : (n ++ t).take (e - s - (j - s)) =
      n ++ t.take (e - s - (j - s) - n.length) := by
    rw [List.take_append_eq_append_take]
    congr 1
    exact List.take_of_length_le (by omega)
  rw [h1, h3, h2, ← ht, h4]
  exact ⟨(l.drop s).take (j - s), t.take (e - s - (j - s) - n.length), by
    rw [List.append_assoc]⟩

/-! ## Relating emptiness of trims and norms -/

theorem trimWS_ne_nil_of_norm_ne_nil {l : List Nat} (h : norm l ≠ []) :
    trimWS l ≠ [] := by
  intro hc
  apply h
  have hall : ∀ c ∈ l, isWS c = true := trimWS_eq_nil_iff.mp hc
  have hall2 : ∀ c ∈ lower l, isWS c = true := by
    intro c hcm
    obtain ⟨a, ha, rfl⟩ := List.mem_map.mp hcm
    rw [isWS_lowerChar]
    exact hall a ha
  have hsq : ∀ c ∈ squashWS (lower l), isWS c = true := by
    intro c hcm
    rcases mem_squashWS hcm with h' | h'
    · rw [h']; exact isWS_32
    · exact hall2 c h'
  exact trimWS_eq_nil_iff.mpr hsq

/-! ## Count preservation (used for the quote-mapping claim) -/

theorem count_squashWS {c : Nat} (hc : isWS c = false) (l : List Nat) :
    (squashWS l).count c = l.count c := by
  induction l using squashWS.induct with
  | case1 => rfl
  | case2 a ha =>
    have hac : (a == c) = false := by
      rw [beq_eq_false_iff_ne]
      intro hac
      rw [hac, hc] at ha
      cases ha
    have h32 : ((32 : Nat) == c) = false := by
      rw [beq_eq_false_iff_ne]
      intro h32
      rw [← h32] at hc
      rw [isWS_32] at hc
      cases hc
    simp only [squashWS, if_pos ha, List.count_cons, List.count_nil, hac, h32]
  | case3 a ha => simp only [squashWS, if_neg ha]
  | case4 a d rest ha hd ih =>
    have hac : (a == c) = false := by
      rw [beq_eq_false_iff_ne]
      intro hac
      rw [hac, hc] at ha
      cases ha
    simp only [squashWS, if_pos ha, if_pos hd, ih, List.count_cons, hac]
    simp
  | case5 a d rest ha hd ih =>
    have hac : (a == c) = false := by
      rw [beq_eq_false_iff_ne]
      intro hac
      rw [hac, hc] at ha
      cases ha
    have h32 : ((32 : Nat) == c) = false := by
      rw [beq_eq_false_iff_ne]
      intro h32
      rw [← h32] at hc
      rw [isWS_32] at hc
      cases hc
    simp only [squashWS, if_pos ha, if_neg hd, List.count_cons, ih, hac, h32]
  | case6 a d rest ha ih =>
    simp only [squashWS, if_neg ha, List.count_cons, ih]

theorem count_trimWS {c : Nat} (hc : isWS c = false) (l : List Nat) :
    (trimWS l).count c = l.count c := by
  obtain ⟨u, v, huv, hu, hv⟩ := trimWS_decomp l
  have hcu : c ∉ u := fun hmem => by rw [hu c hmem] at hc; cases hc
  have hcv : c ∉ v := fun hmem => by rw [hv c hmem] at hc; cases hc
  have := congrArg (List.count c) huv
  simp only [List.count_append, List.count_eq_zero_of_not_mem hcu,
    List.count_eq_zero_of_not_mem hcv] at this
  omega

theorem count_lower {c : Nat} (hbig : 255 < c) (l : List Nat) :
    (lower l).count c = l.count c := by
  rw [List.count_eq_countP, List.count_eq_countP, lower, List.countP_map]
  apply List.countP_congr
  intro x _
  simp only [Function.comp_apply, beq_iff_eq]
  unfold lowerChar
  split
  · rename_i h
    omega
  · exact Iff.rfl

/-! ## Branch characterizations of the two locators -/

theorem findContext_eq_of_none {D H : List Nat}
    (h : idxOf (lower D) (lower (normalize H)) = none) :
    findContext D H = ⟨false, jsSlice D 0 3500⟩ := by
  simp only [findContext, h]

theorem findContext_eq_of_some {D H : List Nat} {idx : Nat}
    (h : idxOf (lower D) (lower (normalize H)) = some idx) :
    findContext D H = ⟨true, jsSlice D (idx - 1800)
      (min D.length (idx + (lower (normalize H)).length + 2200))⟩ := by
  simp only [findContext, h]

theorem getContextChunk_eq_of_empty {D H : List Nat} {r : Nat}
    (h : trimWS D = []) :
    getContextChunk D H r = ⟨[], false, 0, 0⟩ := by
  simp only [getContextChunk, if_pos h]

theorem getContextChunk_eq_of_short {D H : List Nat} {r : Nat}
    (h : trimWS D ≠ []) (h8 : (norm H).length < 8) :
    getContextChunk D H r = ⟨jsSlice D 0 (min D.length 12000), false, 0,
      (jsSlice D 0 (min D.length 12000)).length⟩ := by
  simp only [getContextChunk, if_neg h, if_pos h8]

theorem getContextChunk_eq_of_nomatch {D H : List Nat} {r : Nat}
    (h : trimWS D ≠ []) (h8 : ¬(norm H).length < 8)
    (hp : probeIdx (norm D) (norm H) = none) :
    getContextChunk D H r = ⟨jsSlice D 0 (min D.length 12000), false, 0,
      (jsSlice D 0 (min D.length 12000)).length⟩ := by
  simp only [getContextChunk, if_neg h, if_neg h8, hp]

theorem getContextChunk_eq_of_found {D H : List Nat} {r idx : Nat}
    (h : trimWS D ≠ []) (h8 : ¬(norm H).length < 8)
    (hp : probeIdx (norm D) (norm H) = some idx) :
    getContextChunk D H r =
      ⟨jsSlice D
        (anchorIdx D (norm D) ((trimWS H).take (min (trimWS H).length 80)) idx - r)
        (min D.length
          (anchorIdx D (norm D) ((trimWS H).take (min (trimWS H).length 80)) idx + r)),
       true,
       anchorIdx D (norm D) ((trimWS H).take (min (trimWS H).length 80)) idx - r,
       min D.length
         (anchorIdx D (norm D) ((trimWS H).take (min (trimWS H).length 80)) idx + r)⟩ := by
  simp only [getContextChunk, if_neg h, if_neg h8, hp]

/-! ## Bounds on the probe and anchor indices -/

theorem probeIdx_le {a b : List Nat} {i : Nat} (h : probeIdx a b = some i) :
    i ≤ a.length := by
  unfold probeIdx at h
  split at h
  · rename_i j hj
    cases h
    have := (idxOf_some hj).2
    omega
  · rename_i hj
    split at h
    · have := (idxOf_some h).2
      omega
    · cases h

theorem probeIdx_eq_of_exact {a b : List Nat} {i : Nat}
    (h : idxOf a b = some i) : probeIdx a b = some i := by
  unfold probeIdx
  rw [h]

theorem probeIdx_eq_of_retry {a b : List Nat}
    (h : idxOf a b = none) (hl : 140 < b.length) :
    probeIdx a b = idxOf a (b.take 140) := by
  unfold probeIdx
  rw [h, if_pos hl]

theorem anchorIdx_le {original origNorm needle : List Nat} {idx : Nat}
    (h : idx ≤ origNorm.length) :
    anchorIdx original origNorm needle idx ≤ original.length := by
  unfold anchorIdx
  split
  · rename_i j hj
    split at hj
    · cases hj
    · have h2 := (idxOf_some hj).2
      have h3 : (lower original).length = original.length := length_lower original
      omega
  · have hm : 0 < max origNorm.length 1 := by omega
    calc idx * original.length / max origNorm.length 1
        ≤ max origNorm.length 1 * original.length / max origNorm.length 1 :=
          Nat.div_le_div_right (Nat.mul_le_mul_right original.length (by omega))
      _ = original.length := Nat.mul_div_cancel_left original.length hm

/-! ## Further helpers for concrete evaluations on long documents -/

theorem idxOf_zero_of_prefix {n l : List Nat} (h : n <+: l) : idxOf l n = some 0 := by
  cases l with
  | nil =>
    show (if n.isPrefixOf [] then some 0 else none) = some 0
    rw [if_pos (List.isPrefixOf_iff_prefix.mpr h)]
  | cons c t =>
    show (if n.isPrefixOf (c :: t) then some 0 else idxOfFrom n t 1) = some 0
    rw [if_pos (List.isPrefixOf_iff_prefix.mpr h)]

theorem idxOf_eq_none_of_mem {c : Nat} {h n : List Nat}
    (hc : c ∈ n) (hnot : c ∉ h) : idxOf h n = none := by
  cases hi : idxOf h n with
  | none => rfl
  | some j =>
    have hpre := (idxOf_some hi).1
    exact absurd ((List.drop_suffix j h).subset (hpre.subset hc)) hnot

theorem chain'_of_all_not_ws {l : List Nat} (h : ∀ c ∈ l, isWS c = false) :
    l.Chain' (fun a b => ¬(isWS a = true ∧ isWS b = true)) := by
  induction l with
  | nil => exact List.chain'_nil
  | cons a t ih =>
    rw [List.chain'_cons']
    refine ⟨?_, ih fun c hc => h c (List.mem_cons_of_mem a hc)⟩
    intro y _ hcon
    rw [h a (List.mem_cons_self a t)] at hcon
    cases hcon.1

theorem good_of_all_not_ws {l : List Nat} (h : ∀ c ∈ l, isWS c = false) : Good l :=
  ⟨chain'_of_all_not_ws h, fun c hc hw => by rw [h c hc] at hw; cases hw⟩

theorem dropWhile_eq_self_of_all {l : List Nat}
    (h : ∀ c ∈ l, isWS c = false) : l.dropWhile isWS = l := by
  cases l with
  | nil => rfl
  | cons a t =>
    rw [List.dropWhile_cons, h a (List.mem_cons_self a t)]
    simp

theorem trimWS_eq_self_of_all {l : List Nat}
    (h : ∀ c ∈ l, isWS c = false) : trimWS l = l := by
  unfold trimWS
  rw [dropWhile_eq_self_of_all h,
    dropWhile_eq_self_of_all fun c hc => h c (List.mem_reverse.mp hc),
    List.reverse_reverse]

theorem normalize_eq_self_of_all {l : List Nat}
    (h : ∀ c ∈ l, isWS c = false) : normalize l = l := by
  unfold normalize
  rw [squashWS_eq_self_of_good (good_of_all_not_ws h), trimWS_eq_self_of_all h]

theorem norm_eq_nil_of_all_ws {l : List Nat}
    (hall : ∀ c ∈ l, isWS c = true) : norm l = [] := by
  have hall2 : ∀ c ∈ lower l, isWS c = true := by
    intro c hcm
    obtain ⟨a, ha, rfl⟩ := List.mem_map.mp hcm
    rw [isWS_lowerChar]
    exact hall a ha
  have hsq : ∀ c ∈ squashWS (lower l), isWS c = true := by
    intro c hcm
    rcases mem_squashWS hcm with h' | h'
    · rw [h']; exact isWS_32
    · exact hall2 c h'
  exact trimWS_eq_nil_iff.mpr hsq

theorem squashWS_replicate_32 {k : Nat} (hk : 0 < k) (l : List Nat) :
    squashWS (List.replicate k 32 ++ l) = squashWS (32 :: l) := by
  induction k with
  | zero => cases hk
  | succ k ih =>
    cases k with
    | zero => rfl
    | succ k2 =>
      have h1 : List.replicate (k2 + 1 + 1) 32 ++ l =
          32 :: (List.replicate (k2 + 1) 32 ++ l) := by
        rw [List.replicate_succ]; rfl
      have h2 : List.replicate (k2 + 1) 32 ++ l =
          32 :: (List.replicate k2 32 ++ l) := by
        rw [List.replicate_succ]; rfl
      have h3 : squashWS (32 :: 32 :: (List.replicate k2 32 ++ l)) =
          squashWS (32 :: (List.replicate k2 32 ++ l)) := by
        simp only [squashWS, if_pos isWS_32]
      rw [h1, h2, h3, ← h2, ih (by omega)]

theorem take_min_length (l : List Nat) (n : Nat) :
    l.take (min l.length n) = l.take n := by
  rcases Nat.le_total l.length n with h | h
  · rw [Nat.min_eq_left h, List.take_length, List.take_of_length_le h]
  · rw [Nat.min_eq_right h]

/-! ## Shared helpers for the claim theorems -/

theorem getContextChunk_found_false_of_short {D H : List Nat} {r : Nat}
    (h8 : (norm H).length < 8) : (getContextChunk D H r).found = false := by
  by_cases h : trimWS D = []
  · rw [getContextChunk_eq_of_empty h]
  · rw [getContextChunk_eq_of_short h h8]

theorem count_normalize_eq {c : Nat} (hws : isWS c = false) (l : List Nat) :
    (normalize l).count c = l.count c := by
  unfold normalize
  rw [count_trimWS hws, count_squashWS hws]

theorem count_norm_eq {c : Nat} (hws : isWS c = false) (hbig : 255 < c)
    (l : List Nat) : (norm l).count c = l.count c := by
  unfold norm
  rw [count_trimWS hws, count_squashWS hws, count_lower hbig]

theorem anchorIdx_zero_of_no_needle {original origNorm needle : List Nat}
    (hne : ¬needle = []) (hnone : idxOf (lower original) (lower needle) = none) :
    anchorIdx original origNorm needle 0 = 0 := by
  unfold anchorIdx
  rw [if_neg hne, hnone]
  show 0 * original.length / max origNorm.length 1 = 0
  rw [Nat.zero_mul, Nat.zero_div]

/-! ## Claim theorems -/

/-- Claim C8: the normalization functions are idempotent —
`normalize (normalize s) = normalize s` for the `route.ts` `normalize`, and
likewise for the `part_001` `norm`. -/
theorem C8_normalization_idempotent (s : List Nat) :
    normalize (normalize s) = normalize s ∧ norm (norm s) = norm s :=
  ⟨normalize_idem s, norm_idem s⟩

/-- Claim C9: the locators are deterministic — identical
`(DocumentText, HighlightQuery)` (and radius) inputs give identical
results; the embedded functions consult no state beyond their
arguments. -/
theorem C9_locator_deterministic (D₁ D₂ H₁ H₂ : List Nat) (r₁ r₂ : Nat)
    (hD : D₁ = D₂) (hH : H₁ = H₂) (hr : r₁ = r₂) :
    findContext D₁ H₁ = findContext D₂ H₂ ∧
    getContextChunk D₁ H₁ r₁ = getContextChunk D₂ H₂ r₂ := by
  subst hD; subst hH; subst hr
  exact ⟨rfl, rfl⟩

/-- Witness for C9 at a concrete input. -/
theorem C9_witness :
    findContext (str "a document") (str "a highlight") =
      findContext (str "a document") (str "a highlight") ∧
    getContextChunk (str "a document") (str "a highlight") 2200 =
      getContextChunk (str "a document") (str "a highlight") 2200 :=
  C9_locator_deterministic (str "a document") (str "a document")
    (str "a highlight") (str "a highlight") 2200 2200 rfl rfl rfl

/-- Claim C10: on every path of `getContextChunk` the returned `context`
equals `D.slice(start, end)` for the returned offsets. -/
theorem C10_offsets_delimit_context (D H : List Nat) (r : Nat) :
    (getContextChunk D H r).context =
      jsSlice D (getContextChunk D H r).start (getContextChunk D H r).stop := by
  by_cases h : trimWS D = []
  · rw [getContextChunk_eq_of_empty h]
    simp [jsSlice]
  · by_cases h8 : (norm H).length < 8
    · rw [getContextChunk_eq_of_short h h8]
      dsimp only
      rw [jsSlice_length, jsSlice_zero, jsSlice_zero]
      congr 1
      omega
    · cases hp : probeIdx (norm D) (norm H) with
      | none =>
        rw [getContextChunk_eq_of_nomatch h h8 hp]
        dsimp only
        rw [jsSlice_length, jsSlice_zero, jsSlice_zero]
        congr 1
        omega
      | some idx =>
        rw [getContextChunk_eq_of_found h h8 hp]

/-- Claim C2 (amended): `getContextChunk` skips the search and returns
`found = false` whenever the normalized highlight is shorter than 8 code
units, whatever the document.  (`findContext` performs no such
minimum-length check — see the counterexample.) -/
theorem C2_short_highlight_fallback (D H : List Nat) (r : Nat)
    (h8 : (norm H).length < 8) : (getContextChunk D H r).found = false :=
  getContextChunk_found_false_of_short h8

/-- Witness for C2 at a concrete input. -/
theorem C2_witness :
    (norm (str "xyz")).length < 8 ∧
    (getContextChunk (str "Short doc.") (str "xyz") 2200).found = false :=
  ⟨by decide, C2_short_highlight_fallback (str "Short doc.") (str "xyz") 2200
    (by decide)⟩

/-- Counterexample to C2 as stated: the claim quantifies over both
locators, but `findContext` has no minimum-length check: a 3-character
highlight occurring in the document yields `found = true`. -/
theorem C2_counterexample :
    (normalize (str "abc")).length < 8 ∧ (norm (str "abc")).length < 8 ∧
    (findContext (str "abc def") (str "abc")).found = true := by
  decide

/-- Claim C3 (amended): both locators are total (they are functions) and
degrade on degenerate inputs as follows: `getContextChunk` returns the
`found = false` fallback for an empty document and for an empty highlight;
`findContext` returns `found = false` with an empty window for an empty
document when the normalized highlight is nonempty, and `found = false`
whenever the normalized highlight is longer than the document.  (As the
counterexample shows, the remaining combinations claimed — an empty
highlight in `findContext`, and a highlight longer than the document in
`getContextChunk` — can return `found = true`.) -/
theorem C3_degenerate_inputs (D H : List Nat) (r : Nat) :
    getContextChunk [] H r = ⟨[], false, 0, 0⟩ ∧
    (getContextChunk D [] r).found = false ∧
    (normalize H ≠ [] →
      (findContext [] H).found = false ∧ (findContext [] H).context = []) ∧
    (D.length < (normalize H).length → (findContext D H).found = false) := by
  refine ⟨?_, ?_, ?_, ?_⟩
  · exact getContextChunk_eq_of_empty rfl
  · exact getContextChunk_found_false_of_short (by decide)
  · intro hne
    have hlen : 0 < (lower (normalize H)).length := by
      rw [length_lower]
      cases hx : normalize H with
      | nil => exact absurd hx hne
      | cons a t => simp
    have hnone : idxOf (lower ([] : List Nat)) (lower (normalize H)) = none :=
      idxOf_eq_none_of_lt (by simpa [lower] using hlen)
    rw [findContext_eq_of_none hnone]
    exact ⟨rfl, by simp [jsSlice]⟩
  · intro hlt
    have hnone : idxOf (lower D) (lower (normalize H)) = none :=
      idxOf_eq_none_of_lt (by rw [length_lower, length_lower]; exact hlt)
    rw [findContext_eq_of_none hnone]

/-- Witness for C3 at concrete inputs. -/
theorem C3_witness :
    getContextChunk [] (str "hello world!") 2200 = ⟨[], false, 0, 0⟩ ∧
    (getContextChunk (str "abc") [] 2200).found = false ∧
    ((findContext [] (str "hello world!")).found = false ∧
      (findContext [] (str "hello world!")).context = []) ∧
    (findContext (str "abc") (str "hello world!")).found = false := by
  have h := C3_degenerate_inputs (str "abc") (str "hello world!") 2200
  exact ⟨h.1, h.2.1, h.2.2.1 (by decide), h.2.2.2 (by decide)⟩

set_option maxRecDepth 40000 in
/-- Counterexample to C3 as stated: an empty highlight makes `findContext`
match at index 0 and report `found = true`, and a highlight strictly longer
than the document can still make `getContextChunk` report `found = true`
through the 140-code-unit prefix retry. -/
theorem C3_counterexample :
    (findContext (str "hello world") (str "")).found = true ∧
    (List.replicate 150 (97 : Nat)).length < (List.replicate 160 (97 : Nat)).length ∧
    (getContextChunk (List.replicate 150 (97 : Nat))
      (List.replicate 160 (97 : Nat)) 2200).found = true := by
  decide

/-- Claim C4 (amended): whenever a locator returns `found = false`, the
window is the start-of-document fallback: for `findContext` it equals the
first 3500 code units of the raw document (the whole document if shorter)
and is nonempty unless the document is empty; for `getContextChunk` the
same holds with ceiling 12000 provided the document does not trim to the
empty string; a whitespace-only document instead yields an empty window
(as the counterexample shows, refuting "never empty unless the document
itself is empty"). -/
theorem C4_fallback_window (D H : List Nat) (r : Nat) :
    ((findContext D H).found = false →
      (findContext D H).context = D.take 3500 ∧
        (D ≠ [] → (findContext D H).context ≠ [])) ∧
    (trimWS D ≠ [] → (getContextChunk D H r).found = false →
      (getContextChunk D H r).context = D.take 12000 ∧
        (getContextChunk D H r).context ≠ []) ∧
    (trimWS D = [] → (getContextChunk D H r).context = []) := by
  have hDne : trimWS D ≠ [] → D ≠ [] := by
    intro hD hnil
    apply hD
    rw [hnil]
    rfl
  refine ⟨?_, ?_, ?_⟩
  · intro hf
    cases hix : idxOf (lower D) (lower (normalize H)) with
    | some i =>
      rw [findContext_eq_of_some hix] at hf
      simp at hf
    | none =>
      rw [findContext_eq_of_none hix]
      dsimp only
      refine ⟨jsSlice_zero D 3500, ?_⟩
      intro hD hc
      rw [jsSlice_zero] at hc
      rcases List.take_eq_nil_iff.mp hc with h0 | h0
      · cases h0
      · exact hD h0
  · intro hD hf
    have hne : D ≠ [] := hDne hD
    by_cases h8 : (norm H).length < 8
    · rw [getContextChunk_eq_of_short hD h8]
      dsimp only
      refine ⟨by rw [jsSlice_zero, take_min_length], ?_⟩
      intro hc
      rw [jsSlice_zero] at hc
      rcases List.take_eq_nil_iff.mp hc with h0 | h0
      · -- min D.length 12000 = 0 forces D = []
        rw [Nat.min_eq_zero_iff] at h0
        rcases h0 with h0 | h0
        · exact hne (List.length_eq_zero.mp h0)
        · cases h0
      · exact hne h0
    · cases hp : probeIdx (norm D) (norm H) with
      | some idx =>
        rw [getContextChunk_eq_of_found hD h8 hp] at hf
        simp at hf
      | none =>
        rw [getContextChunk_eq_of_nomatch hD h8 hp]
        dsimp only
        refine ⟨by rw [jsSlice_zero, take_min_length], ?_⟩
        intro hc
        rw [jsSlice_zero] at hc
        rcases List.take_eq_nil_iff.mp hc with h0 | h0
        · rw [Nat.min_eq_zero_iff] at h0
          rcases h0 with h0 | h0
          · exact hne (List.length_eq_zero.mp h0)
          · cases h0
        · exact hne h0
  · intro hD
    rw [getContextChunk_eq_of_empty hD]

/-- Witness for C4 at a concrete input (a highlight that occurs nowhere in
the document, so both locators take the fallback path). -/
theorem C4_witness :
    ((findContext (str "some doc here") (str "zzzzzzzzzz")).context =
        (str "some doc here").take 3500 ∧
      (findContext (str "some doc here") (str "zzzzzzzzzz")).context ≠ []) ∧
    ((getContextChunk (str "some doc here") (str "zzzzzzzzzz") 2200).context =
        (str "some doc here").take 12000 ∧
      (getContextChunk (str "some doc here") (str "zzzzzzzzzz") 2200).context ≠ []) := by
  have h := C4_fallback_window (str "some doc here") (str "zzzzzzzzzz") 2200
  have h1 := h.1 (by decide)
  exact ⟨⟨h1.1, h1.2 (by decide)⟩, h.2.1 (by decide) (by decide)⟩

/-- Counterexample to C4 as stated: on a whitespace-only (hence nonempty)
document, `getContextChunk` returns `found = false` with an *empty* window
rather than the first `N` code units of the document. -/
theorem C4_counterexample :
    (getContextChunk (str "   ") (str "abcdefghij") 2200).found = false ∧
    (getContextChunk (str "   ") (str "abcdefghij") 2200).context = [] ∧
    str "   " ≠ [] ∧
    (getContextChunk (str "   ") (str "abcdefghij") 2200).context ≠
      (str "   ").take 12000 := by
  decide

/-- Claim C7 (amended): the 140-code-unit prefix retry belongs to
`getContextChunk` only: if the normalized highlight is longer than 140,
the exact normalized search fails, and the 140-unit prefix of the
normalized highlight occurs in the normalized document, then
`getContextChunk` returns `found = true`.  (`findContext` has no retry —
see the counterexample.) -/
theorem C7_prefix_retry (D H : List Nat) (r : Nat)
    (hlen : 140 < (norm H).length)
    (hfull : idxOf (norm D) (norm H) = none)
    (hpre : (norm H).take 140 <:+: norm D) :
    (getContextChunk D H r).found = true := by
  obtain ⟨i, hi⟩ : ∃ i, idxOf (norm D) ((norm H).take 140) = some i := by
    cases hx : idxOf (norm D) ((norm H).take 140) with
    | none => exact absurd hx (idxOf_ne_none_of_occurs hpre)
    | some i => exact ⟨i, rfl⟩
  have hp : probeIdx (norm D) (norm H) = some i := by
    rw [probeIdx_eq_of_retry hfull hlen, hi]
  have h8 : ¬(norm H).length < 8 := by omega
  have hlen140 : ((norm H).take 140).length = 140 := by
    rw [List.length_take]
    omega
  have hbound := (idxOf_some hi).2
  have hD : trimWS D ≠ [] := by
    apply trimWS_ne_nil_of_norm_ne_nil
    intro hn
    rw [hn] at hbound
    rw [hlen140] at hbound
    simp at hbound
  rw [getContextChunk_eq_of_found hD h8 hp]

set_option maxRecDepth 40000 in
/-- Witness for C7 at a concrete input: a 142-unit highlight whose full
form does not occur in the 145-unit document but whose 140-unit prefix
does. -/
theorem C7_witness :
    (getContextChunk (List.replicate 145 (97 : Nat))
      (List.replicate 141 (97 : Nat) ++ [98]) 2200).found = true := by
  apply C7_prefix_retry (List.replicate 145 (97 : Nat))
    (List.replicate 141 (97 : Nat) ++ [98]) 2200
  · decide
  · decide
  · decide

set_option maxRecDepth 40000 in
/-- Counterexample to C7 as stated: the claim covers both locators, but
`findContext` never retries with a prefix: on the same document/highlight
pair for which `getContextChunk` succeeds via the retry, `findContext`
reports `found = false`. -/
theorem C7_counterexample :
    140 < (norm (List.replicate 141 (97 : Nat) ++ [98])).length ∧
    idxOf (norm (List.replicate 145 (97 : Nat)))
      (norm (List.replicate 141 (97 : Nat) ++ [98])) = none ∧
    (norm (List.replicate 141 (97 : Nat) ++ [98])).take 140 <:+:
      norm (List.replicate 145 (97 : Nat)) ∧
    (findContext (List.replicate 145 (97 : Nat))
      (List.replicate 141 (97 : Nat) ++ [98])).found = false := by
  decide

/-- Claim C1 (amended): `findContext` searches the *raw* lowercased
document, so its premise must read "the lowercased normalized highlight
occurs in the lowercased raw document"; under that premise it returns
`found = true` and its window contains the match (up to case).
`getContextChunk` searches normalized space: if the normalized highlight
occurs in the normalized document and has length ≥ 8 it returns
`found = true` — but its window need not contain the highlight (see the
counterexample). -/
theorem C1_found_on_match (D H : List Nat) (r : Nat) :
    (lower (normalize H) <:+: lower D →
      (findContext D H).found = true ∧
        lower (normalize H) <:+: lower ((findContext D H).context)) ∧
    (norm H <:+: norm D → 8 ≤ (norm H).length →
      (getContextChunk D H r).found = true) := by
  constructor
  · intro hin
    obtain ⟨i, hi⟩ : ∃ i, idxOf (lower D) (lower (normalize H)) = some i := by
      cases hx : idxOf (lower D) (lower (normalize H)) with
      | none => exact absurd hx (idxOf_ne_none_of_occurs hin)
      | some i => exact ⟨i, rfl⟩
    rw [findContext_eq_of_some hi]
    dsimp only
    refine ⟨rfl, ?_⟩
    have hcomm : lower (jsSlice D (i - 1800)
        (min D.length (i + (lower (normalize H)).length + 2200))) =
        jsSlice (lower D) (i - 1800)
          (min D.length (i + (lower (normalize H)).length + 2200)) := by
      simp [lower, jsSlice]
    rw [hcomm]
    obtain ⟨hpre, hbound⟩ := idxOf_some hi
    have hlenD : (lower D).length = D.length := length_lower D
    exact infix_jsSlice hpre (by omega) (by omega)
  · intro hin h8
    obtain ⟨i, hi⟩ : ∃ i, idxOf (norm D) (norm H) = some i := by
      cases hx : idxOf (norm D) (norm H) with
      | none => exact absurd hx (idxOf_ne_none_of_occurs hin)
      | some i => exact ⟨i, rfl⟩
    have hD : trimWS D ≠ [] := by
      apply trimWS_ne_nil_of_norm_ne_nil
      intro hn
      rw [hn] at hin
      have := List.infix_nil.mp hin
      rw [this] at h8
      simp at h8
    rw [getContextChunk_eq_of_found hD (by omega) (probeIdx_eq_of_exact hi)]

/-- Witness for C1 at a concrete input: a highlight differing from its
occurrence in the document by case and internal whitespace. -/
theorem C1_witness :
    ((findContext (str "hello world test") (str "WORLD  test")).found = true ∧
      lower (normalize (str "WORLD  test")) <:+:
        lower ((findContext (str "hello world test") (str "WORLD  test")).context)) ∧
    (getContextChunk (str "hello world test") (str "WORLD  test") 2200).found = true := by
  have h := C1_found_on_match (str "hello world test") (str "WORLD  test") 2200
  exact ⟨h.1 (by decide), h.2 (by decide) (by decide)⟩

set_option maxRecDepth 40000 in
/-- Counterexample to C1 as stated.  First: `findContext` does not
normalize the document, so a highlight whose normalized form occurs in the
normalized document (but not verbatim in the raw document, which has a
double space) yields `found = false`.  Second: `getContextChunk` can
return `found = true` with a window that does not contain the highlight —
with a long whitespace prefix the raw-needle search fails (the highlight
has a tab where the document has a space), the ratio estimate anchors the
window at position 0, and the window is 2200 spaces that normalize to the
empty string. -/
theorem C1_counterexample :
    (norm (str "abcdefgh ij") <:+: norm (str "abcdefgh  ij") ∧
      8 ≤ (norm (str "abcdefgh ij")).length ∧
      (findContext (str "abcdefgh  ij") (str "abcdefgh ij")).found = false) ∧
    (norm (str "abcdefgh\tij") <:+:
        norm (List.replicate 2500 32 ++ str "abcdefgh ij") ∧
      8 ≤ (norm (str "abcdefgh\tij")).length ∧
      (getContextChunk (List.replicate 2500 32 ++ str "abcdefgh ij")
        (str "abcdefgh\tij") 2200).found = true ∧
      ¬ norm (str "abcdefgh\tij") <:+:
          norm ((getContextChunk (List.replicate 2500 32 ++ str "abcdefgh ij")
            (str "abcdefgh\tij") 2200).context)) := by
  have hnormH : norm (str "abcdefgh\tij") = str "abcdefgh ij" := by decide
  have hlowsmall : lower (str "abcdefgh ij") = str "abcdefgh ij" := by decide
  have hlowD : lower (List.replicate 2500 32 ++ str "abcdefgh ij") =
      List.replicate 2500 32 ++ str "abcdefgh ij" := by
    rw [lower, List.map_append, List.map_replicate, lowerChar_32]
    congr 1
  have hnormD : norm (List.replicate 2500 32 ++ str "abcdefgh ij") =
      str "abcdefgh ij" := by
    show trimWS (squashWS (lower (List.replicate 2500 32 ++ str "abcdefgh ij"))) =
      str "abcdefgh ij"
    rw [hlowD, squashWS_replicate_32 (by omega) (str "abcdefgh ij")]
    decide
  have hD : trimWS (List.replicate 2500 32 ++ str "abcdefgh ij") ≠ [] := by
    apply trimWS_ne_nil_of_norm_ne_nil
    rw [hnormD]
    decide
  have h8 : ¬(norm (str "abcdefgh\tij")).length < 8 := by
    rw [hnormH]
    decide
  have hidx : idxOf (norm (List.replicate 2500 32 ++ str "abcdefgh ij"))
      (norm (str "abcdefgh\tij")) = some 0 := by
    rw [hnormD, hnormH]
    exact idxOf_zero_of_prefix List.prefix_rfl
  have hneedle : (trimWS (str "abcdefgh\tij")).take
      (min (trimWS (str "abcdefgh\tij")).length 80) = str "abcdefgh\tij" := by
    decide
  have hnone9 : idxOf (lower (List.replicate 2500 32 ++ str "abcdefgh ij"))
      (lower (str "abcdefgh\tij")) = none := by
    apply idxOf_eq_none_of_mem (c := 9)
    · decide
    · rw [hlowD]
      intro hmem
      rcases List.mem_append.mp hmem with h' | h'
      · have := List.eq_of_mem_replicate h'
        cases this
      · exact absurd h' (by decide)
  have hanchor : anchorIdx (List.replicate 2500 32 ++ str "abcdefgh ij")
      (norm (List.replicate 2500 32 ++ str "abcdefgh ij"))
      (str "abcdefgh\tij") 0 = 0 :=
    anchorIdx_zero_of_no_needle (by decide) hnone9
  have hlenD : (List.replicate 2500 32 ++ str "abcdefgh ij").length = 2511 := by
    rw [List.length_append, List.length_replicate]
    decide
  have hctx : jsSlice (List.replicate 2500 32 ++ str "abcdefgh ij") (0 - 2200)
      (min (List.replicate 2500 32 ++ str "abcdefgh ij").length (0 + 2200)) =
      List.replicate 2200 32 := by
    rw [hlenD, Nat.zero_sub, Nat.zero_add, (show min 2511 2200 = 2200 by omega),
      jsSlice_zero,
      List.take_append_of_le_length (by rw [List.length_replicate]; omega),
      List.take_replicate, (show min 2200 2500 = 2200 by omega)]
  have hnormctx : norm (List.replicate 2200 (32 : Nat)) = [] :=
    norm_eq_nil_of_all_ws fun c hc => by
      rw [List.eq_of_mem_replicate hc]
      exact isWS_32
  refine ⟨by decide, ?_, ?_, ?_, ?_⟩
  · rw [hnormH, hnormD]
  · rw [hnormH]
    decide
  · rw [getContextChunk_eq_of_found hD h8 (probeIdx_eq_of_exact hidx)]
  · rw [getContextChunk_eq_of_found hD h8 (probeIdx_eq_of_exact hidx)]
    dsimp only
    rw [hneedle, hanchor, hctx, hnormctx, hnormH]
    intro hcon
    have := List.infix_nil.mp hcon
    exact absurd this (by decide)

/-- Claim C5 (amended): every window is a contiguous slice of the raw
document with in-bounds offsets; for `getContextChunk` its length is at
most `max 12000 (2·radius)` and it is nonempty whenever the document does
not trim to empty and the radius is positive; for `findContext` the
fallback is at most 3500 units but the match window is only bounded by
`|normalize H| + 4000` — it can exceed any fixed ceiling for long
highlights — and windows are empty for empty (or, in `getContextChunk`,
whitespace-only) documents (see the counterexample). -/
theorem C5_window_bounds (D H : List Nat) (r : Nat) :
    ((findContext D H).context <:+: D ∧
      (findContext D H).context.length ≤ (normalize H).length + 4000 ∧
      (D ≠ [] → (findContext D H).context ≠ [])) ∧
    ((getContextChunk D H r).context <:+: D ∧
      (getContextChunk D H r).context.length ≤ max 12000 (2 * r) ∧
      (getContextChunk D H r).stop ≤ D.length ∧
      (getContextChunk D H r).start ≤ (getContextChunk D H r).stop ∧
      (trimWS D ≠ [] → 0 < r → (getContextChunk D H r).context ≠ [])) := by
  constructor
  · cases hix : idxOf (lower D) (lower (normalize H)) with
    | none =>
      rw [findContext_eq_of_none hix]
      dsimp only
      refine ⟨jsSlice_infix_self D 0 3500, ?_, ?_⟩
      · rw [jsSlice_length]
        omega
      · intro hD
        apply jsSlice_ne_nil
        have := List.length_pos.mpr hD
        omega
    | some i =>
      rw [findContext_eq_of_some hix]
      dsimp only
      obtain ⟨hpre, hbound⟩ := idxOf_some hix
      rw [length_lower, length_lower] at hbound
      refine ⟨jsSlice_infix_self .., ?_, ?_⟩
      · rw [jsSlice_length, length_lower]
        omega
      · intro hD
        apply jsSlice_ne_nil
        have := List.length_pos.mpr hD
        rw [length_lower]
        omega
  · by_cases hD0 : trimWS D = []
    · rw [getContextChunk_eq_of_empty hD0]
      dsimp only
      refine ⟨List.nil_infix, by simp, Nat.zero_le _, Nat.le_refl 0, ?_⟩
      intro h1 _
      exact absurd hD0 h1
    · have hDpos : 0 < D.length :=
        List.length_pos.mpr fun hnil => hD0 (by rw [hnil]; rfl)
      by_cases h8 : (norm H).length < 8
      · rw [getContextChunk_eq_of_short hD0 h8]
        dsimp only
        refine ⟨jsSlice_infix_self .., ?_, ?_, Nat.zero_le _, ?_⟩
        · rw [jsSlice_length]
          omega
        · rw [jsSlice_length]
          omega
        · intro _ _
          apply jsSlice_ne_nil
          omega
      · cases hp : probeIdx (norm D) (norm H) with
        | none =>
          rw [getContextChunk_eq_of_nomatch hD0 h8 hp]
          dsimp only
          refine ⟨jsSlice_infix_self .., ?_, ?_, Nat.zero_le _, ?_⟩
          · rw [jsSlice_length]
            omega
          · rw [jsSlice_length]
            omega
          · intro _ _
            apply jsSlice_ne_nil
            omega
        | some idx =>
          rw [getContextChunk_eq_of_found hD0 h8 hp]
          dsimp only
          have hA : anchorIdx D (norm D)
              ((trimWS H).take (min (trimWS H).length 80)) idx ≤ D.length :=
            anchorIdx_le (probeIdx_le hp)
          refine ⟨jsSlice_infix_self .., ?_, ?_, ?_, ?_⟩
          · rw [jsSlice_length]
            omega
          · omega
          · omega
          · intro _ hr
            apply jsSlice_ne_nil
            omega

/-- Witness for C5 at a concrete input. -/
theorem C5_witness :
    ((findContext (str "hello there world") (str "there")).context <:+:
        str "hello there world" ∧
      (findContext (str "hello there world") (str "there")).context.length ≤
        (normalize (str "there")).length + 4000 ∧
      (findContext (str "hello there world") (str "there")).context ≠ []) ∧
    ((getContextChunk (str "hello there world") (str "there") 2200).context <:+:
        str "hello there world" ∧
      (getContextChunk (str "hello there world") (str "there") 2200).context.length ≤
        max 12000 (2 * 2200) ∧
      (getContextChunk (str "hello there world") (str "there") 2200).stop ≤
        (str "hello there world").length ∧
      (getContextChunk (str "hello there world") (str "there") 2200).start ≤
        (getContextChunk (str "hello there world") (str "there") 2200).stop ∧
      (getContextChunk (str "hello there world") (str "there") 2200).context ≠ []) := by
  have h := C5_window_bounds (str "hello there world") (str "there") 2200
  exact ⟨⟨h.1.1, h.1.2.1, h.1.2.2 (by decide)⟩,
    ⟨h.2.1, h.2.2.1, h.2.2.2.1, h.2.2.2.2.1,
      h.2.2.2.2.2 (by decide) (by decide)⟩⟩

/-- Counterexample to C5 as stated: the window is not always nonempty (an
empty document yields an empty window), and `findContext`'s match window
is not bounded by its configured window size (4000, nor the 3500
fallback): a 1900-unit highlight matched at index 0 of a 4200-unit
document gives a 4100-unit window. -/
theorem C5_counterexample :
    (findContext ([] : List Nat) ([] : List Nat)).context = [] ∧
    (findContext (List.replicate 4200 (97 : Nat))
      (List.replicate 1900 (97 : Nat))).context.length = 4100 := by
  constructor
  · decide
  · have hall : ∀ c ∈ List.replicate 1900 (97 : Nat), isWS c = false := by
      intro c hc
      rw [List.eq_of_mem_replicate hc]
      decide
    have hnorm : normalize (List.replicate 1900 (97 : Nat)) =
        List.replicate 1900 97 := normalize_eq_self_of_all hall
    have h97 : lowerChar 97 = 97 := by decide
    have hlowH : lower (List.replicate 1900 (97 : Nat)) = List.replicate 1900 97 := by
      rw [lower, List.map_replicate, h97]
    have hlowD : lower (List.replicate 4200 (97 : Nat)) = List.replicate 4200 97 := by
      rw [lower, List.map_replicate, h97]
    have hpre : List.replicate 1900 (97 : Nat) <+: List.replicate 4200 97 :=
      ⟨List.replicate 2300 97, by rw [List.append_replicate_replicate]⟩
    have hidx : idxOf (lower (List.replicate 4200 (97 : Nat)))
        (lower (normalize (List.replicate 1900 (97 : Nat)))) = some 0 := by
      rw [hnorm, hlowH, hlowD]
      exact idxOf_zero_of_prefix hpre
    rw [findContext_eq_of_some hidx]
    dsimp only
    rw [jsSlice_length, hnorm, hlowH, List.length_replicate, List.length_replicate]
    omega

/-- Claim C6 (amended): the normalization functions do *not* map curly
quotes to straight quotes — every curly-quote code point (U+201C, U+201D,
U+2018, U+2019) occurs exactly as often after normalization as before (it
is neither whitespace nor case-mapped).  Consequently a document with
curly quotes and a highlight with straight quotes does not match (see the
counterexample). -/
theorem C6_no_quote_mapping (l : List Nat) :
    ((normalize l).count 8220 = l.count 8220 ∧
      (normalize l).count 8221 = l.count 8221 ∧
      (normalize l).count 8216 = l.count 8216 ∧
      (normalize l).count 8217 = l.count 8217) ∧
    ((norm l).count 8220 = l.count 8220 ∧
      (norm l).count 8221 = l.count 8221 ∧
      (norm l).count 8216 = l.count 8216 ∧
      (norm l).count 8217 = l.count 8217) :=
  ⟨⟨count_normalize_eq (by decide) l, count_normalize_eq (by decide) l,
    count_normalize_eq (by decide) l, count_normalize_eq (by decide) l⟩,
   ⟨count_norm_eq (by decide) (by decide) l, count_norm_eq (by decide) (by decide) l,
    count_norm_eq (by decide) (by decide) l, count_norm_eq (by decide) (by decide) l⟩⟩

/-- Counterexample to C6 as stated: normalization leaves curly quotes in
place, and the curly-quoted document does not match the straight-quoted
highlight in either locator. -/
theorem C6_counterexample :
    normalize [8220] = [8220] ∧ norm [8216] = [8216] ∧
    (getContextChunk (str "say “Hello there” end")
      (str "\"Hello there\"") 2200).found = false ∧
    (findContext (str "say “Hello there” end")
      (str "\"Hello there\"")).found = false := by
  decide

end PdfExplainer
